import Mathlib

/-!
Verification of the retrieval-augmented-generation engine in
`multi-media-rag1-main/main.py` (`AdvancedRAGEngine`).

Python strings are modelled as `List Char`, numeric embedding values as `ℚ`,
fallible operations as `Except RagError`, and the mutable engine object as an
explicit `EngineState` threaded through each operation (an operation returns
the result together with the state as it stands when the operation finishes,
whether it finishes normally or by raising).

The external collaborators (`sklearn.TfidfVectorizer`, `faiss.IndexFlatL2`,
the filesystem/`pdfplumber`, and the Groq chat client) are not part of the
repository; they are modelled from the spec (sections 4.1, 4.3, 4.4, 4.6) and
are marked `Modelled from the spec:` in their doc comments.  Everything else
is translated directly from `main.py`.
-/

namespace MRag

/-- A Python string, modelled as its list of characters. -/
abbrev Str := List Char

/-- A single word (whitespace-free fragment of a `Str`). -/
abbrev Word := List Char

/-- Accumulator-based splitter behind `pyWords`: `acc` holds the characters of
the word currently being scanned, in reverse order. -/
def pyWordsAux : List Char → List Char → List Word
  | [], acc => if acc = [] then [] else [acc.reverse]
  | c :: cs, acc =>
    if c.isWhitespace then
      (if acc = [] then [] else [acc.reverse]) ++ pyWordsAux cs []
    else
      pyWordsAux cs (c :: acc)

/-- Python `str.split()` with no arguments: split on runs of whitespace,
discarding empty fragments (used by `_chunk_text`, line 109 of `main.py`). -/
def pyWords (s : Str) : List Word :=
  pyWordsAux s []

/-- Python `sep.join(parts)`. -/
def joinSep (sep : Str) : List Str → Str
  | [] => []
  | [w] => w
  | w :: x :: ws => w ++ sep ++ joinSep sep (x :: ws)

/-- Python `" ".join(parts)` (line 117 of `main.py`). -/
def joinSpace (ws : List Str) : Str :=
  joinSep (" ".toList) ws

/-- Python `str.strip()`: remove leading and trailing whitespace. -/
def pyStrip (s : Str) : Str :=
  ((s.dropWhile Char.isWhitespace).reverse.dropWhile Char.isWhitespace).reverse

/-- Python `str.lower()`, characterwise. -/
def pyLower (s : Str) : Str :=
  s.map Char.toLower

/-- A proper word: nonempty and whitespace-free.  Every element of
`pyWords s` is a proper word. -/
def IsWord (w : Word) : Prop :=
  w ≠ [] ∧ ∀ c ∈ w, c.isWhitespace = false

/-- The body of the `for start in range(0, len(words), step)` loop of
`AdvancedRAGEngine._chunk_text` (lines 115-121 of `main.py`), recursing over
the explicit list of `start` values produced by `range`:
`chunk = " ".join(words[start:start+size]).strip(); if chunk: append;
if start + size >= len(words): break`. -/
def chunkLoop (words : List Word) (size : Nat) : List Nat → List Str
  | [] => []
  | start :: rest =>
    let chunk := pyStrip (joinSpace ((words.drop start).take size))
    let tail := if words.length ≤ start + size then [] else chunkLoop words size rest
    if chunk = [] then tail else chunk :: tail

/-- `AdvancedRAGEngine._chunk_text` (lines 108-122 of `main.py`):
`words = text.split(); if not words: return []`;
`step = max(1, chunk_size_words - chunk_overlap_words)`; then the loop over
`range(0, len(words), step)`, which is the arithmetic progression starting at
0 with stride `step` and `⌈len(words)/step⌉` elements. -/
def chunk_text (size overlap : Nat) (text : Str) : List Str :=
  let words := pyWords text
  if words = [] then []
  else
    let step := max 1 (size - overlap)
    chunkLoop words size (List.range' 0 ((words.length + step - 1) / step) step)

deriving instance DecidableEq for Except

/-- The error kinds of section 7 of the spec that the engine itself can raise
(each is a `FileNotFoundError`/`ValueError`/`RuntimeError` in `main.py`). -/
inductive RagError where
  | fileNotFound
  | unsupportedFormat
  | emptyDocument
  | emptyEmbeddings
  | noKnowledgeBase
  deriving DecidableEq, Repr

/-- `RetrievalResult` (lines 13-16 of `main.py`): a retrieved chunk together
with its distance score. -/
structure RetrievalResult where
  chunk : Str
  score : ℚ
  deriving DecidableEq

/-- Modelled from the spec: tokenization of `sklearn.TfidfVectorizer`
(section 4.3: "case-insensitive word tokenization; a fixed stop-word list ...
is removed before weighting").  The stop-word list is the `stop` parameter
(the constructor passes `stop_words="english"`). -/
def tokenize (stop : List Word) (doc : Str) : List Word :=
  (pyWords (pyLower doc)).filter fun w => decide (w ∉ stop)

/-- Modelled from the spec: the fitted vector space of section 4.3, "the
fitted lexical vocabulary ... plus its inverse-document-frequency weights,
derived exclusively from the current chunk set".  Each vocabulary term is
paired with its idf weight; the spec fixes no particular idf formula, so the
literal `document count / document frequency` over `ℚ` is used (no claim
depends on the numeric weight values). -/
def fitVectorizer (stop : List Word) (docs : List Str) : List (Word × ℚ) :=
  let toks := docs.map (tokenize stop)
  let vocab := (toks.map id).flatten.dedup
  vocab.map fun t =>
    (t, (docs.length : ℚ) / ((toks.filter fun d => decide (t ∈ d)).length : ℚ))

/-- Modelled from the spec: projecting one document into a fitted vector
space (section 4.3: dimension value = `term_frequency_in_chunk ×
inverse_document_frequency_across_all_chunks`; section 4.5: terms unseen
during fitting contribute zero weight). -/
def transform (stop : List Word) (F : List (Word × ℚ)) (doc : Str) : List ℚ :=
  F.map fun ti => ((tokenize stop doc).count ti.1 : ℚ) * ti.2

/-- The dense embedding matrix `vectorizer.fit_transform(chunks).toarray()`
(line 125-126 of `main.py`): one row per chunk. -/
def matrixOf (stop : List Word) (docs : List Str) : List (List ℚ) :=
  docs.map (transform stop (fitVectorizer stop docs))

/-- `numpy` `embeddings.size`: the total number of entries of the matrix. -/
def matSize (X : List (List ℚ)) : Nat :=
  (X.map List.length).sum

/-- Squared Euclidean distance between two vectors (the metric of
`faiss.IndexFlatL2`, spec section 4.4: "plain squared L2"). -/
def sqdist (u v : List ℚ) : ℚ :=
  ((u.zip v).map fun p => (p.1 - p.2) * (p.1 - p.2)).sum

/-- The order in which `faiss.IndexFlatL2.search` ranks its (row index,
squared distance) candidates: ascending distance, ties broken by the lower
row index (spec section 4.4). -/
def pairLE (a b : Int × ℚ) : Prop :=
  a.2 < b.2 ∨ (a.2 = b.2 ∧ a.1 ≤ b.1)

instance (a b : Int × ℚ) : Decidable (pairLE a b) := by
  unfold pairLE; infer_instance

instance : IsTrans (Int × ℚ) pairLE where
  trans a b c hab hbc := by
    rcases hab with h1 | ⟨h1, h1'⟩
    · rcases hbc with h2 | ⟨h2, h2'⟩
      · exact Or.inl (lt_trans h1 h2)
      · exact Or.inl (h2 ▸ h1)
    · rcases hbc with h2 | ⟨h2, h2'⟩
      · exact Or.inl (h1 ▸ h2)
      · exact Or.inr ⟨h1.trans h2, le_trans h1' h2'⟩

instance : IsTotal (Int × ℚ) pairLE where
  total a b := by
    rcases lt_trichotomy a.2 b.2 with h | h | h
    · exact Or.inl (Or.inl h)
    · rcases le_total a.1 b.1 with h' | h'
      · exact Or.inl (Or.inr ⟨h, h'⟩)
      · exact Or.inr (Or.inr ⟨h.symm, h'⟩)
    · exact Or.inr (Or.inl h)

/-- Modelled from the spec: `faiss.IndexFlatL2.search` over the stored rows
`E` (section 4.4: `search(query_vector, k)` returns the `k` nearest
`(index, distance)` pairs ordered by ascending squared Euclidean distance,
ties broken by original chunk order; when `k` exceeds the number of stored
vectors the remaining slots are padding with sentinel index `-1`). -/
def faissSearch (E : List (List ℚ)) (q : List ℚ) (k : Nat) : List (Int × ℚ) :=
  let pairs := (List.range E.length).map fun i => (Int.ofNat i, sqdist q (E.getD i []))
  let sorted := List.insertionSort pairLE pairs
  sorted.take k ++ List.replicate (k - (sorted.take k).length) ((-1 : Int), (0 : ℚ))

/-- The mutable state of one `AdvancedRAGEngine` instance (lines 20-40 of
`main.py`).  `stop` is the configuration of `self.vectorizer`
(`TfidfVectorizer(stop_words="english")`); `fitted` is the vectorizer's
fitted vocabulary-with-idf state, `none` before the first `fit_transform`.
The Groq client, api key and model name play no part in any claim and are
omitted; the generation collaborator is passed explicitly to `answer`. -/
structure EngineState where
  chunk_size_words : Nat
  chunk_overlap_words : Nat
  stop : List Word
  chunks : List Str
  fitted : Option (List (Word × ℚ))
  index : Option (List (List ℚ))
  embeddings : Option (List (List ℚ))
  source_name : Option Str
  deriving DecidableEq

/-- `AdvancedRAGEngine.__init__` (lines 20-40 of `main.py`): no chunks, no
index, no embeddings, no source, unfitted vectorizer. -/
def initEngine (size overlap : Nat) (stop : List Word) : EngineState :=
  { chunk_size_words := size
    chunk_overlap_words := overlap
    stop := stop
    chunks := []
    fitted := none
    index := none
    embeddings := none
    source_name := none }

/-- `AdvancedRAGEngine._build_index` (lines 124-134 of `main.py`):
`X = self.vectorizer.fit_transform(chunks)` (which fits the vectorizer),
`embeddings = X.toarray()`, `if embeddings.size == 0: raise ValueError`,
otherwise a fresh `faiss.IndexFlatL2` is filled with the rows and stored
together with the embeddings.  The returned state is the engine as it stands
when the call finishes (the vectorizer is already refit when the raise
happens). -/
def build_index (s : EngineState) (chunks : List Str) :
    Except RagError Unit × EngineState :=
  let F := fitVectorizer s.stop chunks
  let X := matrixOf s.stop chunks
  let s1 := { s with fitted := some F }
  if matSize X = 0 then (.error .emptyEmbeddings, s1)
  else (.ok (), { s1 with index := some X, embeddings := some X })

/-- `AdvancedRAGEngine.ingest_text` (lines 63-70 of `main.py`):
`if not text or not text.strip(): raise ValueError`; then
`self.source_name = source_name; self.chunks = self._chunk_text(text);
self._build_index(self.chunks); return len(self.chunks)`. -/
def ingest_text (s : EngineState) (text source_name : Str) :
    Except RagError Nat × EngineState :=
  if text = [] ∨ pyStrip text = [] then (.error .emptyDocument, s)
  else
    let s1 := { s with
      source_name := some source_name
      chunks := chunk_text s.chunk_size_words s.chunk_overlap_words text }
    match build_index s1 s1.chunks with
    | (.error e, s2) => (.error e, s2)
    | (.ok _, s2) => (.ok s2.chunks.length, s2)

/-- Modelled from the spec: the source file seen through the external
filesystem / `pdfplumber` collaborators (sections 4.1 and 6): a path has a
name and a suffix, may or may not exist, and yields either UTF-8 text content
(plain-text read) or a list of per-page extraction results (PDF), where a
page yields `none` when it has no extractable text. -/
structure PyFile where
  name : Str
  suffix : Str
  ex : Bool
  content : Str
  pages : List (Option Str)

/-- `AdvancedRAGEngine._extract_text_from_pdf` (lines 136-144 of `main.py`):
keep the pages whose extraction is truthy (neither `None` nor empty) and join
them with newlines. -/
def extract_text_from_pdf (pages : List (Option Str)) : Str :=
  joinSep ("\n".toList) ((pages.filterMap id).filter fun t => decide (t ≠ []))

/-- `AdvancedRAGEngine.ingest_file` (lines 42-61 of `main.py`): existence
check, suffix dispatch on `path.suffix.lower()`, emptiness check, then
`self.source_name = path.name; self.chunks = self._chunk_text(text);
self._build_index(self.chunks); return len(self.chunks)`. -/
def ingest_file (s : EngineState) (f : PyFile) :
    Except RagError Nat × EngineState :=
  if f.ex = false then (.error .fileNotFound, s)
  else
    let suffix := pyLower f.suffix
    let rest := fun (text : Str) =>
      if text = [] ∨ pyStrip text = [] then
        ((.error .emptyDocument : Except RagError Nat), s)
      else
        let s1 := { s with
          source_name := some f.name
          chunks := chunk_text s.chunk_size_words s.chunk_overlap_words text }
        match build_index s1 s1.chunks with
        | (.error e, s2) => (.error e, s2)
        | (.ok _, s2) => (.ok s2.chunks.length, s2)
    if suffix = (".txt".toList) then rest f.content
    else if suffix = (".pdf".toList) then rest (extract_text_from_pdf f.pages)
    else (.error .unsupportedFormat, s)

/-- `AdvancedRAGEngine.retrieve` (lines 72-84 of `main.py`):
`if self.index is None or not self.chunks: raise RuntimeError`; the query is
projected into the fitted vector space, the index is searched, and each
returned pair is mapped back to its chunk, silently skipping indices outside
`[0, len(self.chunks))`.  (`self.fitted` is necessarily set whenever
`self.index` is set; `getD` supplies a default for the vacuous case.) -/
def retrieve (s : EngineState) (query : Str) (top_k : Nat) :
    Except RagError (List RetrievalResult) :=
  if s.index = none ∨ s.chunks = [] then .error .noKnowledgeBase
  else
    let q_vec := transform s.stop (s.fitted.getD []) query
    let res := faissSearch (s.index.getD []) q_vec top_k
    .ok (res.filterMap fun p =>
      if p.1 < 0 ∨ ((s.chunks.length : Int) ≤ p.1) then none
      else some { chunk := s.chunks.getD p.1.toNat [], score := p.2 })

/-- The fixed sentinel of `AdvancedRAGEngine.answer` (line 89 of `main.py`)
returned when retrieval yields no context. -/
def sentinelAnswer : Str :=
  "I could not retrieve relevant context.".toList

/-- The fixed prompt template of `AdvancedRAGEngine.answer` (lines 92-99 of
`main.py`). -/
def promptTemplate (context query : Str) : Str :=
  ("You are a helpful assistant. Answer using only the provided context. If the context is insufficient, say exactly: \x27I don\x27t know based on the provided context.\x27\n\nContext:\n".toList)
    ++ context ++ ("\n\nQuestion: ".toList) ++ query ++ ("\n\nAnswer:".toList)

/-- `AdvancedRAGEngine.answer` (lines 86-106 of `main.py`).  The external
generation collaborator (`self.client.chat.completions.create` returning
`response.choices[0].message.content`) is the explicit argument `gen`, a
function of the prompt and the temperature; its output is `.strip()`ped. -/
def answer (s : EngineState) (gen : Str → ℚ → Str) (query : Str)
    (top_k : Nat) (temperature : ℚ) :
    Except RagError (Str × List RetrievalResult) :=
  match retrieve s query top_k with
  | .error e => .error e
  | .ok docs =>
    if docs = [] then .ok (sentinelAnswer, [])
    else
      let context := joinSep ("\n\n".toList) (docs.map RetrievalResult.chunk)
      let prompt := promptTemplate context query
      .ok (pyStrip (gen prompt temperature), docs)

end MRag


namespace MRag

/-! ### Lemmas about Python word splitting, joining and stripping -/

theorem pyWordsAux_append_word (w : List Char) :
    ∀ (s acc : List Char), (∀ c ∈ w, c.isWhitespace = false) →
      pyWordsAux (w ++ s) acc = pyWordsAux s (w.reverse ++ acc) := by
  induction w with
  | nil => intro s acc _; simp
  | cons c w ih =>
    intro s acc h
    have hc : c.isWhitespace = false := h c (by simp)
    simp only [List.cons_append, pyWordsAux, hc, Bool.false_eq_true, if_false,
      List.reverse_cons, List.append_assoc, List.singleton_append]
    exact ih s (c :: acc) fun d hd => h d (by simp [hd])

theorem pyWords_single (w : List Char) (hw : IsWord w) : pyWords w = [w] := by
  have h := pyWordsAux_append_word w [] [] hw.2
  simpa [pyWords, pyWordsAux, hw.1] using h

theorem pyWords_joinSpace :
    ∀ ws : List Word, (∀ w ∈ ws, IsWord w) → pyWords (joinSpace ws) = ws := by
  intro ws
  induction ws with
  | nil => intro _; rfl
  | cons w rest ih =>
    intro h
    have hw : IsWord w := h w (by simp)
    cases rest with
    | nil => exact pyWords_single w hw
    | cons x rest' =>
      have hjoin : joinSpace (w :: x :: rest') =
          w ++ (' ' :: joinSpace (x :: rest')) := by
        simp [joinSpace, joinSep, String.toList]
      rw [pyWords, hjoin, pyWordsAux_append_word w _ [] hw.2]
      have hws : (' ' : Char).isWhitespace = true := rfl
      simp only [pyWordsAux, hws, if_true, List.append_nil]
      have hrevne : w.reverse ≠ [] := by
        simpa using hw.1
      rw [if_neg hrevne]
      have := ih fun u hu => h u (by simp [hu])
      rw [pyWords] at this
      simp [this]

theorem pyWordsAux_proper :
    ∀ (s acc : List Char), (∀ c ∈ acc, c.isWhitespace = false) →
      ∀ w ∈ pyWordsAux s acc, IsWord w := by
  intro s
  induction s with
  | nil =>
    intro acc hacc w hw
    by_cases h : acc = []
    · simp [pyWordsAux, h] at hw
    · simp only [pyWordsAux, h, if_false, List.mem_singleton] at hw
      subst hw
      exact ⟨by simpa using h, fun c hc => hacc c (by simpa using hc)⟩
  | cons c cs ih =>
    intro acc hacc w hw
    by_cases hc : c.isWhitespace = true
    · simp only [pyWordsAux, hc, if_true, List.mem_append] at hw
      rcases hw with hw | hw
      · by_cases h : acc = []
        · simp [h] at hw
        · simp only [h, if_false, List.mem_singleton] at hw
          subst hw
          exact ⟨by simpa using h, fun d hd => hacc d (by simpa using hd)⟩
      · exact ih [] (by simp) w hw
    · simp only [pyWordsAux, hc, if_false] at hw
      refine ih (c :: acc) ?_ w hw
      intro d hd
      rcases List.mem_cons.mp hd with rfl | hd
      · simpa using hc
      · exact hacc d hd

theorem pyWords_proper (s : Str) : ∀ w ∈ pyWords s, IsWord w :=
  pyWordsAux_proper s [] (by simp)

theorem dropWhile_ws_eq_self {s : Str} {c : Char} (hhead : s.head? = some c)
    (hc : c.isWhitespace = false) :
    s.dropWhile Char.isWhitespace = s := by
  cases s with
  | nil => simp at hhead
  | cons a t =>
    have : a = c := by simpa using hhead
    subst this
    simp [List.dropWhile, hc]

theorem pyStrip_eq_self {s : Str} {c d : Char} (hhead : s.head? = some c)
    (hc : c.isWhitespace = false) (hlast : s.getLast? = some d)
    (hd : d.isWhitespace = false) :
    pyStrip s = s := by
  rw [pyStrip, dropWhile_ws_eq_self hhead hc]
  have hrev : s.reverse.head? = some d := by
    rw [List.head?_reverse]; exact hlast
  rw [dropWhile_ws_eq_self hrev hd, List.reverse_reverse]

theorem joinSpace_head? (w : Str) (ws : List Str) (hw : w ≠ []) :
    (joinSpace (w :: ws)).head? = w.head? := by
  cases ws with
  | nil => rfl
  | cons x rest =>
    cases w with
    | nil => exact absurd rfl hw
    | cons a t => simp [joinSpace, joinSep]

theorem joinSpace_ne_nil (w : Str) (ws : List Str) (hw : w ≠ []) :
    joinSpace (w :: ws) ≠ [] := by
  cases ws with
  | nil => simpa [joinSpace, joinSep] using hw
  | cons x rest =>
    cases w with
    | nil => exact absurd rfl hw
    | cons a t => simp [joinSpace, joinSep]

theorem joinSpace_getLast? :
    ∀ (ws : List Str) (w : Str), ws.getLast? = some w →
      (∀ u ∈ ws, u ≠ []) → (joinSpace ws).getLast? = w.getLast? := by
  intro ws
  induction ws with
  | nil => intro w h; simp at h
  | cons u rest ih =>
    intro w hlast hne
    cases rest with
    | nil =>
      have : u = w := by simpa using hlast
      subst this; rfl
    | cons x rest' =>
      have hlast' : (x :: rest').getLast? = some w := by
        simpa [List.getLast?_cons_cons] using hlast
      have hj : joinSpace (u :: x :: rest') =
          (u ++ " ".toList) ++ joinSpace (x :: rest') := by
        simp [joinSpace, joinSep]
      have hxne : x ≠ [] := hne x (by simp)
      have hjoin_ne : joinSpace (x :: rest') ≠ [] := joinSpace_ne_nil x rest' hxne
      rw [hj, List.getLast?_append]
      have := ih w hlast' fun v hv => hne v (by simp [hv])
      rw [this]
      have hwne : w ≠ [] := by
        have hmem : w ∈ x :: rest' := List.mem_of_getLast?_eq_some hlast'
        exact hne w (by simp [hmem])
      cases hwg : w.getLast? with
      | none => exact absurd (List.getLast?_eq_none_iff.mp hwg) hwne
      | some z => simp

theorem strip_joinSpace (ws : List Str) (hne : ws ≠ [])
    (hw : ∀ w ∈ ws, IsWord w) :
    pyStrip (joinSpace ws) = joinSpace ws ∧ joinSpace ws ≠ [] := by
  cases ws with
  | nil => exact absurd rfl hne
  | cons w rest =>
    have hw0 : IsWord w := hw w (by simp)
    have hjne := joinSpace_ne_nil w rest hw0.1
    refine ⟨?_, hjne⟩
    -- head character
    cases w with
    | nil => exact absurd rfl hw0.1
    | cons a t =>
      have hhead : (joinSpace ((a :: t) :: rest)).head? = some a := by
        rw [joinSpace_head? _ _ (by simp)]; rfl
      have ha : a.isWhitespace = false := hw0.2 a (by simp)
      -- last character
      have hlast_exists : ∃ u, ((a :: t) :: rest).getLast? = some u := by
        cases h : ((a :: t) :: rest).getLast? with
        | none => simp [List.getLast?_eq_none_iff] at h
        | some u => exact ⟨u, rfl⟩
      obtain ⟨u, hu⟩ := hlast_exists
      have humem : u ∈ (a :: t) :: rest := List.mem_of_getLast?_eq_some hu
      have huw : IsWord u := hw u humem
      have hjlast : (joinSpace ((a :: t) :: rest)).getLast? = u.getLast? :=
        joinSpace_getLast? _ u hu fun v hv => (hw v hv).1
      obtain ⟨z, hz⟩ : ∃ z, u.getLast? = some z := by
        cases h : u.getLast? with
        | none => exact absurd (List.getLast?_eq_none_iff.mp h) huw.1
        | some z => exact ⟨z, rfl⟩
      have hzmem : z ∈ u := List.mem_of_getLast?_eq_some hz
      exact pyStrip_eq_self hhead ha (by rw [hjlast]; exact hz)
        (huw.2 z hzmem)

end MRag

namespace MRag

/-! ### The chunker roundtrip -/

theorem chunkLoop_spec (words : List Word) (hw : ∀ w ∈ words, IsWord w)
    (S O : Nat) (hSO : O < S) :
    ∀ (k start : Nat), start < words.length →
      words.length ≤ start + (S - O) * k →
      chunkLoop words S (List.range' start k (S - O)) ≠ [] ∧
      pyWords ((chunkLoop words S (List.range' start k (S - O))).getLastD []) ≠ [] ∧
      ((chunkLoop words S (List.range' start k (S - O))).dropLast.flatMap
          fun c => (pyWords c).take (S - O))
        ++ pyWords ((chunkLoop words S (List.range' start k (S - O))).getLastD [])
        = words.drop start := by
  intro k
  induction k with
  | zero =>
    intro start h1 h2
    simp only [Nat.mul_zero] at h2
    omega
  | succ k ih =>
    intro start h1 h2
    have hwin_proper : ∀ w ∈ (words.drop start).take S, IsWord w :=
      fun w hmem => hw w (List.mem_of_mem_drop (List.mem_of_mem_take hmem))
    have hwin_ne : (words.drop start).take S ≠ [] := by
      have : 0 < ((words.drop start).take S).length := by
        simp only [List.length_take, List.length_drop]
        omega
      exact List.length_pos.mp this
    obtain ⟨hstrip, hjne⟩ := strip_joinSpace _ hwin_ne hwin_proper
    have hpwjoin : pyWords (joinSpace ((words.drop start).take S)) =
        (words.drop start).take S := pyWords_joinSpace _ hwin_proper
    rw [List.range'_succ]
    simp only [chunkLoop, hstrip]
    rw [if_neg hjne]
    by_cases hend : words.length ≤ start + S
    · rw [if_pos hend]
      have hwin_eq : (words.drop start).take S = words.drop start := by
        apply List.take_of_length_le
        simp only [List.length_drop]
        omega
      refine ⟨by simp, ?_, ?_⟩
      · show pyWords (joinSpace ((words.drop start).take S)) ≠ []
        rw [hpwjoin]; exact hwin_ne
      · show [] ++ pyWords (joinSpace ((words.drop start).take S)) = words.drop start
        rw [List.nil_append, hpwjoin]; exact hwin_eq
    · rw [if_neg hend]
      have h1' : start + (S - O) < words.length := by omega
      have h2' : words.length ≤ (start + (S - O)) + (S - O) * k := by
        rw [Nat.mul_succ] at h2
        omega
      obtain ⟨htne, hlastne, heq⟩ := ih (start + (S - O)) h1' h2'
      cases htl : chunkLoop words S (List.range' (start + (S - O)) k (S - O)) with
      | nil => rw [htl] at htne; exact absurd rfl htne
      | cons t ts =>
        rw [htl] at hlastne heq
        refine ⟨by simp, ?_, ?_⟩
        · simpa [List.getLastD_eq_getLast?, List.getLast?_cons_cons] using hlastne
        · have hdl : (joinSpace ((words.drop start).take S) :: t :: ts).dropLast =
              joinSpace ((words.drop start).take S) :: (t :: ts).dropLast := by
            simp
          have hgl : (joinSpace ((words.drop start).take S) :: t :: ts).getLastD [] =
              (t :: ts).getLastD [] := by
            simp [List.getLastD_eq_getLast?, List.getLast?_cons_cons]
          rw [hdl, hgl, List.flatMap_cons, hpwjoin, List.append_assoc, heq]
          have htake : ((words.drop start).take S).take (S - O) =
              (words.drop start).take (S - O) := by
            rw [List.take_take]
            congr 1
            omega
          have hdrop : words.drop (start + (S - O)) =
              (words.drop start).drop (S - O) := by
            rw [List.drop_drop]
          rw [htake, hdrop, List.take_append_drop]

/-- Claim C3: for every source text whose word sequence is nonempty and every
`chunk_size_words = S`, `chunk_overlap_words = O` with `O < S`, the chunker
output is a round trip of the source: the concatenation of each non-final
chunk's first `S - O` words with the whole final chunk's word sequence
reconstructs the source word sequence exactly, and the final chunk's last
word is the source's last word. -/
theorem chunker_roundtrip (text : Str) (S O : Nat) (hSO : O < S)
    (hN : pyWords text ≠ []) :
    chunk_text S O text ≠ [] ∧
    ((chunk_text S O text).dropLast.flatMap fun c => (pyWords c).take (S - O))
        ++ pyWords ((chunk_text S O text).getLastD []) = pyWords text ∧
    (pyWords ((chunk_text S O text).getLastD [])).getLast? =
      (pyWords text).getLast? := by
  have hstep : max 1 (S - O) = S - O := Nat.max_eq_right (by omega)
  have hlen : 0 < (pyWords text).length := List.length_pos.mpr hN
  have hchunk : chunk_text S O text =
      chunkLoop (pyWords text) S
        (List.range' 0 (((pyWords text).length + (S - O) - 1) / (S - O)) (S - O)) := by
    simp only [chunk_text, hstep]
    rw [if_neg hN]
  have hcov : (pyWords text).length ≤
      0 + (S - O) * (((pyWords text).length + (S - O) - 1) / (S - O)) := by
    have h1 := Nat.div_add_mod ((pyWords text).length + (S - O) - 1) (S - O)
    have h2 := Nat.mod_lt ((pyWords text).length + (S - O) - 1)
      (y := S - O) (by omega)
    omega
  obtain ⟨hne, hlastne, heq⟩ :=
    chunkLoop_spec (pyWords text) (pyWords_proper text) S O hSO
      (((pyWords text).length + (S - O) - 1) / (S - O)) 0 hlen hcov
  rw [List.drop_zero] at heq
  rw [hchunk]
  refine ⟨hne, heq, ?_⟩
  have h3 : (pyWords text).getLast? =
      (pyWords ((chunkLoop (pyWords text) S
        (List.range' 0 (((pyWords text).length + (S - O) - 1) / (S - O))
          (S - O))).getLastD [])).getLast? := by
    conv_lhs => rw [← heq]
    rw [List.getLast?_append]
    cases hL : (pyWords ((chunkLoop (pyWords text) S
        (List.range' 0 (((pyWords text).length + (S - O) - 1) / (S - O))
          (S - O))).getLastD [])).getLast? with
    | none =>
      exact absurd (List.getLast?_eq_none_iff.mp hL) hlastne
    | some z => simp
  exact h3.symm

/-- Claim C1: chunking the text "The cat sat. The dog ran." with
`chunk_size_words = 3` and `chunk_overlap_words = 1` yields exactly the three
chunks "The cat sat.", "sat. The dog", "dog ran." (`step = 2`). -/
theorem chunk_scenario :
    chunk_text 3 1 ("The cat sat. The dog ran.".toList) =
      ["The cat sat.".toList, "sat. The dog".toList, "dog ran.".toList] := by
  decide

end MRag

namespace MRag

theorem chunker_roundtrip_witness :
    1 < 3 ∧ pyWords ("The cat sat. The dog ran.".toList) ≠ [] ∧
    (chunk_text 3 1 ("The cat sat. The dog ran.".toList) ≠ [] ∧
     ((chunk_text 3 1 ("The cat sat. The dog ran.".toList)).dropLast.flatMap
         fun c => (pyWords c).take (3 - 1))
        ++ pyWords ((chunk_text 3 1 ("The cat sat. The dog ran.".toList)).getLastD [])
        = pyWords ("The cat sat. The dog ran.".toList) ∧
     (pyWords ((chunk_text 3 1 ("The cat sat. The dog ran.".toList)).getLastD
         [])).getLast? =
       (pyWords ("The cat sat. The dog ran.".toList)).getLast?) :=
  ⟨by decide, by decide,
    chunker_roundtrip ("The cat sat. The dog ran.".toList) 3 1 (by decide) (by decide)⟩

/-! ### The vector space builder -/

theorem sum_map_const {α : Type} (l : List α) (c : Nat) :
    (l.map fun _ => c).sum = l.length * c := by
  induction l with
  | nil => simp
  | cons a l ih =>
    simp only [List.map_cons, List.sum_cons, ih, List.length_cons]
    rw [Nat.succ_mul]
    omega

theorem matSize_matrixOf (stop : List Word) (docs : List Str) :
    matSize (matrixOf stop docs) = docs.length * (fitVectorizer stop docs).length := by
  have h1 : (matrixOf stop docs).map List.length =
      docs.map fun _ => (fitVectorizer stop docs).length := by
    simp only [matrixOf, List.map_map]
    congr 1
    funext x
    simp [transform]
  rw [matSize, h1, sum_map_const]

/-- Claim C8: whenever the embedding matrix built from the chunk list has
zero rows or zero columns (for example because every chunk consists solely of
stop words), the index build step fails with the `EmptyEmbeddings` error
kind. -/
theorem build_index_empty (s : EngineState) (chunks : List Str)
    (h : (matrixOf s.stop chunks).length = 0 ∨
         (fitVectorizer s.stop chunks).length = 0) :
    (build_index s chunks).1 = .error .emptyEmbeddings := by
  have hsize : matSize (matrixOf s.stop chunks) = 0 := by
    rw [matSize_matrixOf]
    rcases h with h | h
    · simp only [matrixOf, List.length_map] at h
      rw [h, Nat.zero_mul]
    · rw [h, Nat.mul_zero]
  simp [build_index, hsize]

theorem build_index_empty_witness :
    ((fitVectorizer (initEngine 3 1 [("the".toList)]).stop [("the".toList)]).length = 0) ∧
    (build_index (initEngine 3 1 [("the".toList)]) [("the".toList)]).1 =
      .error .emptyEmbeddings :=
  ⟨by decide,
    build_index_empty (initEngine 3 1 [("the".toList)]) [("the".toList)]
      (Or.inr (by decide))⟩

/-! ### Ingestion -/

/-- Claim C2 (amended): after any *successful* ingest call (`ingest_text` or
`ingest_file`) the similarity index holds exactly one row per stored chunk,
and the returned count is the stored chunk count.  (A *failing* ingest may
leave the freshly assigned chunk list alongside the previous index, because
the engine mutates its fields one at a time; see the counterexample.) -/
theorem ingest_success_consistent :
    (∀ (s : EngineState) (text nm : Str) (r : Except RagError Nat)
        (s' : EngineState), ingest_text s text nm = (r, s') →
        ∀ n, r = .ok n →
        (s'.index.getD []).length = s'.chunks.length ∧
        n = s'.chunks.length) ∧
    (∀ (s : EngineState) (f : PyFile) (r : Except RagError Nat)
        (s' : EngineState), ingest_file s f = (r, s') →
        ∀ n, r = .ok n →
        (s'.index.getD []).length = s'.chunks.length ∧
        n = s'.chunks.length) := by
  constructor
  · intro s text nm r s' h n hr
    subst hr
    simp only [ingest_text] at h
    split at h
    · simp at h
    · split at h
      case _ e s2 heq =>
        simp at h
      case _ u s2 heq =>
        simp only [build_index] at heq
        split at heq
        · simp at heq
        · injection heq with h1 h2
          subst h2
          injection h with h3 h4
          subst h4
          injection h3 with h5
          refine ⟨?_, h5.symm⟩
          simp [matrixOf]
  · intro s f r s' h n hr
    subst hr
    simp only [ingest_file] at h
    split at h
    · simp at h
    · split at h
      · split at h
        · simp at h
        · split at h
          case _ e s2 heq =>
            simp at h
          case _ u s2 heq =>
            simp only [build_index] at heq
            split at heq
            · simp at heq
            · injection heq with h1 h2
              subst h2
              injection h with h3 h4
              subst h4
              injection h3 with h5
              refine ⟨?_, h5.symm⟩
              simp [matrixOf]
      · split at h
        · split at h
          · simp at h
          · split at h
            case _ e s2 heq =>
              simp at h
            case _ u s2 heq =>
              simp only [build_index] at heq
              split at heq
              · simp at heq
              · injection heq with h1 h2
                subst h2
                injection h with h3 h4
                subst h4
                injection h3 with h5
                refine ⟨?_, h5.symm⟩
                simp [matrixOf]
        · simp at h

theorem ingest_success_consistent_witness :
    ((ingest_text (initEngine 3 1 []) ("apple banana".toList) ("t".toList)).1 =
      .ok 1) ∧
    ((ingest_text (initEngine 3 1 []) ("apple banana".toList)
        ("t".toList)).2.index.getD []).length =
      (ingest_text (initEngine 3 1 []) ("apple banana".toList)
        ("t".toList)).2.chunks.length :=
  ⟨by decide,
    (ingest_success_consistent.1 (initEngine 3 1 []) ("apple banana".toList)
      ("t".toList)
      ((ingest_text (initEngine 3 1 []) ("apple banana".toList) ("t".toList)).1)
      ((ingest_text (initEngine 3 1 []) ("apple banana".toList) ("t".toList)).2)
      rfl 1 (by decide)).1⟩

/-- Claim C2 is false as stated: starting from a fresh engine, a first
(successful) ingest loads a 2-chunk knowledge base; a second ingest of the
stop-word-only text "the the" raises `EmptyEmbeddings` *after* having already
replaced the chunk list, leaving the engine observable with 1 stored chunk
but a similarity index still holding the previous 2 rows. -/
theorem ingest_inconsistent_counterexample :
    ((ingest_text (initEngine 3 1 [("the".toList)])
        ("apple banana cherry date elderberry".toList) ("t1".toList)).1 =
      .ok 2) ∧
    ((ingest_text
        (ingest_text (initEngine 3 1 [("the".toList)])
          ("apple banana cherry date elderberry".toList) ("t1".toList)).2
        ("the the".toList) ("t2".toList)).1 = .error .emptyEmbeddings) ∧
    ((ingest_text
        (ingest_text (initEngine 3 1 [("the".toList)])
          ("apple banana cherry date elderberry".toList) ("t1".toList)).2
        ("the the".toList) ("t2".toList)).2.chunks.length = 1) ∧
    ¬ (((ingest_text
        (ingest_text (initEngine 3 1 [("the".toList)])
          ("apple banana cherry date elderberry".toList) ("t1".toList)).2
        ("the the".toList) ("t2".toList)).2.index.getD []).length =
      (ingest_text
        (ingest_text (initEngine 3 1 [("the".toList)])
          ("apple banana cherry date elderberry".toList) ("t1".toList)).2
        ("the the".toList) ("t2".toList)).2.chunks.length) := by
  exact ⟨by decide, by decide, by decide, by decide⟩

end MRag

namespace MRag

/-- Claim C10: for a non-whitespace text `T`, `ingest_text T` and
`ingest_file` on an existing `.txt` file whose content is `T` produce the
same result and leave the engine with the same chunk list, fitted vector
space, index and embeddings; the two paths differ only in the recorded
source name. -/
theorem ingest_text_file_equiv (s : EngineState) (T nm : Str) (f : PyFile)
    (hex : f.ex = true) (hsuf : pyLower f.suffix = (".txt".toList))
    (hcont : f.content = T) (hne : ¬(T = [] ∨ pyStrip T = [])) :
    (ingest_file s f).1 = (ingest_text s T nm).1 ∧
    (ingest_file s f).2.chunks = (ingest_text s T nm).2.chunks ∧
    (ingest_file s f).2.fitted = (ingest_text s T nm).2.fitted ∧
    (ingest_file s f).2.index = (ingest_text s T nm).2.index ∧
    (ingest_file s f).2.embeddings = (ingest_text s T nm).2.embeddings ∧
    (ingest_file s f).2.source_name = some f.name ∧
    (ingest_text s T nm).2.source_name = some nm := by
  have hex' : ¬ (f.ex = false) := by simp [hex]
  simp only [ingest_file, ingest_text, if_neg hex', if_pos hsuf, hcont,
    if_neg hne]
  by_cases hz : matSize (matrixOf s.stop
      (chunk_text s.chunk_size_words s.chunk_overlap_words T)) = 0
  · simp [build_index, hz]
  · simp [build_index, hz]

theorem ingest_text_file_equiv_witness :
    ({ name := ("a.txt".toList), suffix := (".txt".toList), ex := true,
       content := ("apple banana".toList), pages := [] } : PyFile).ex = true ∧
    pyLower (".txt".toList) = (".txt".toList) ∧
    ¬(("apple banana".toList) = [] ∨ pyStrip ("apple banana".toList) = []) ∧
    (ingest_file (initEngine 3 1 [])
        { name := ("a.txt".toList), suffix := (".txt".toList), ex := true,
          content := ("apple banana".toList), pages := [] }).1 =
      (ingest_text (initEngine 3 1 []) ("apple banana".toList)
        ("t".toList)).1 ∧
    (ingest_file (initEngine 3 1 [])
        { name := ("a.txt".toList), suffix := (".txt".toList), ex := true,
          content := ("apple banana".toList), pages := [] }).2.index =
      (ingest_text (initEngine 3 1 []) ("apple banana".toList)
        ("t".toList)).2.index :=
  ⟨rfl, by decide, by decide,
    (ingest_text_file_equiv (initEngine 3 1 []) ("apple banana".toList)
      ("t".toList) _ rfl (by decide) rfl (by decide)).1,
    (ingest_text_file_equiv (initEngine 3 1 []) ("apple banana".toList)
      ("t".toList) _ rfl (by decide) rfl (by decide)).2.2.2.1⟩

/-- Claim C9: an existing file whose (lower-cased) suffix is neither `.txt`
nor `.pdf` is rejected with `UnsupportedFormat`, and an existing `.txt` file
whose content strips to nothing is rejected with `EmptyDocument`; in both
cases the engine state is left untouched. -/
theorem ingest_file_errors :
    (∀ (s : EngineState) (f : PyFile), f.ex = true →
        pyLower f.suffix ≠ (".txt".toList) →
        pyLower f.suffix ≠ (".pdf".toList) →
        ingest_file s f = (.error .unsupportedFormat, s)) ∧
    (∀ (s : EngineState) (f : PyFile), f.ex = true →
        pyLower f.suffix = (".txt".toList) →
        pyStrip f.content = [] →
        ingest_file s f = (.error .emptyDocument, s)) := by
  constructor
  · intro s f hex h1 h2
    have hex' : ¬ (f.ex = false) := by simp [hex]
    simp only [ingest_file, if_neg hex', if_neg h1, if_neg h2]
  · intro s f hex h1 h2
    have hex' : ¬ (f.ex = false) := by simp [hex]
    have hempty : f.content = [] ∨ pyStrip f.content = [] := Or.inr h2
    simp only [ingest_file, if_neg hex', if_pos h1, if_pos hempty]

theorem ingest_file_errors_witness :
    (({ name := ("a.docx".toList), suffix := (".docx".toList), ex := true,
        content := [], pages := [] } : PyFile).ex = true ∧
     pyLower (".docx".toList) ≠ (".txt".toList) ∧
     pyLower (".docx".toList) ≠ (".pdf".toList) ∧
     ingest_file (initEngine 3 1 [])
        { name := ("a.docx".toList), suffix := (".docx".toList), ex := true,
          content := [], pages := [] } =
       (.error .unsupportedFormat, initEngine 3 1 [])) ∧
    (({ name := ("b.txt".toList), suffix := (".txt".toList), ex := true,
        content := ("   ".toList), pages := [] } : PyFile).ex = true ∧
     pyLower (".txt".toList) = (".txt".toList) ∧
     pyStrip ("   ".toList) = [] ∧
     ingest_file (initEngine 3 1 [])
        { name := ("b.txt".toList), suffix := (".txt".toList), ex := true,
          content := ("   ".toList), pages := [] } =
       (.error .emptyDocument, initEngine 3 1 [])) :=
  ⟨⟨rfl, by decide, by decide,
    ingest_file_errors.1 (initEngine 3 1 []) _ rfl (by decide) (by decide)⟩,
   ⟨rfl, by decide, by decide,
    ingest_file_errors.2 (initEngine 3 1 []) _ rfl (by decide) (by decide)⟩⟩

/-- Claim C6: `retrieve` on an engine holding no knowledge base (no index
loaded, or an empty chunk list — in particular any engine on which no ingest
has succeeded, such as a freshly constructed one) fails with
`NoKnowledgeBase`. -/
theorem retrieve_no_knowledge_base (s : EngineState) (q : Str) (k : Nat)
    (h : s.index = none ∨ s.chunks = []) :
    retrieve s q k = .error .noKnowledgeBase := by
  simp only [retrieve, if_pos h]

theorem retrieve_no_knowledge_base_witness :
    (initEngine 3 1 []).index = none ∧
    retrieve (initEngine 3 1 []) ("q".toList) 3 = .error .noKnowledgeBase :=
  ⟨rfl, retrieve_no_knowledge_base (initEngine 3 1 []) ("q".toList) 3
    (Or.inl rfl)⟩

end MRag

namespace MRag

/-! ### Retrieval -/

theorem filterMap_ite_eq {α β : Type} (c : α → Prop) [DecidablePred c]
    (g : α → β) (l : List α) :
    (l.filterMap fun a => if c a then none else some (g a)) =
      (l.filter fun a => decide (¬ c a)).map g := by
  induction l with
  | nil => rfl
  | cons a l ih =>
    by_cases h : c a
    · simp [List.filterMap_cons, List.filter_cons, h, ih]
    · simp [List.filterMap_cons, List.filter_cons, h, ih]

theorem retrieve_eq_hits (s : EngineState) (q : Str) (k : Nat)
    (hidx : s.index ≠ none) (hch : s.chunks ≠ []) :
    retrieve s q k = .ok
      (((faissSearch (s.index.getD [])
            (transform s.stop (s.fitted.getD []) q) k).filter
          fun p => decide (¬ (p.1 < 0 ∨ ((s.chunks.length : Int) ≤ p.1)))).map
        fun p => { chunk := s.chunks.getD p.1.toNat [], score := p.2 }) := by
  have hcond : ¬ (s.index = none ∨ s.chunks = []) := not_or.mpr ⟨hidx, hch⟩
  simp only [retrieve, if_neg hcond]
  rw [filterMap_ite_eq]

theorem filter_pad_nil (n : Int) (m : Nat) :
    (List.replicate m ((-1 : Int), (0 : ℚ))).filter
      (fun p => decide (¬ (p.1 < 0 ∨ (n ≤ p.1)))) = [] := by
  apply List.filter_eq_nil_iff.mpr
  intro a ha
  rcases List.eq_of_mem_replicate ha with rfl
  simp

theorem faissSearch_filter (E : List (List ℚ)) (qv : List ℚ) (k : Nat)
    (n : Int) :
    ((faissSearch E qv k).filter
        fun p => decide (¬ (p.1 < 0 ∨ (n ≤ p.1)))) =
      ((List.insertionSort pairLE ((List.range E.length).map fun i =>
          (Int.ofNat i, sqdist qv (E.getD i [])))).take k).filter
        (fun p => decide (¬ (p.1 < 0 ∨ (n ≤ p.1)))) := by
  simp only [faissSearch]
  rw [List.filter_append, filter_pad_nil, List.append_nil]

end MRag

namespace MRag

/-- Claim C4: on a loaded knowledge base, the valid (index, distance) pairs
produced by the similarity-index search are ordered by ascending squared
Euclidean distance with ties broken by the lower chunk index, every reported
score is the plain squared L2 distance between the query vector and that
chunk's embedding row (no normalization), and `retrieve` returns exactly
those pairs, in that order, mapped back to their chunks. -/
theorem retrieve_sorted_by_distance (s : EngineState) (q : Str) (k : Nat)
    (E : List (List ℚ)) (F : List (Word × ℚ))
    (hE : s.index = some E) (hF : s.fitted = some F) (hc : s.chunks ≠ [])
    (hrows : E.length = s.chunks.length) :
    ∃ hits : List (Int × ℚ),
      retrieve s q k = .ok (hits.map fun p =>
        { chunk := s.chunks.getD p.1.toNat [], score := p.2 }) ∧
      hits.Pairwise (fun a b => a.2 < b.2 ∨ (a.2 = b.2 ∧ a.1 < b.1)) ∧
      (∀ p ∈ hits, 0 ≤ p.1 ∧ p.1 < (E.length : Int)) ∧
      (∀ p ∈ hits, p.2 = sqdist (transform s.stop F q) (E.getD p.1.toNat [])) := by
  have hidx : s.index ≠ none := by rw [hE]; simp
  have heq := retrieve_eq_hits s q k hidx hc
  rw [hE, hF] at heq
  simp only [Option.getD_some] at heq
  rw [faissSearch_filter] at heq
  set qv := transform s.stop F q with hqv
  set pairs := (List.range E.length).map
    (fun i => (Int.ofNat i, sqdist qv (E.getD i []))) with hpairs
  set sorted := List.insertionSort pairLE pairs with hsorted_def
  set hits := (sorted.take k).filter
    (fun p => decide (¬ (p.1 < 0 ∨ ((s.chunks.length : Int) ≤ p.1)))) with hhits
  have hperm : List.Perm sorted pairs := List.perm_insertionSort pairLE pairs
  have hsub1 : List.Sublist hits sorted :=
    (List.filter_sublist _).trans (List.take_sublist k sorted)
  refine ⟨hits, heq, ?_, ?_, ?_⟩
  · have hsorted : List.Sorted pairLE sorted :=
      List.sorted_insertionSort pairLE pairs
    have hpair : hits.Pairwise pairLE := List.Pairwise.sublist hsub1 hsorted
    have hnd_pairs : (pairs.map Prod.fst).Nodup := by
      rw [hpairs, List.map_map]
      exact List.Nodup.map (fun a b hab => by simpa using hab)
        (List.nodup_range E.length)
    have hnd_sorted : (sorted.map Prod.fst).Nodup :=
      ((hperm.map Prod.fst).nodup_iff).mpr hnd_pairs
    have hnd_hits : (hits.map Prod.fst).Nodup :=
      List.Nodup.sublist (List.Sublist.map Prod.fst hsub1) hnd_sorted
    have hne_pair : hits.Pairwise fun a b => a.1 ≠ b.1 :=
      List.pairwise_map.mp hnd_hits
    refine (hpair.and hne_pair).imp ?_
    rintro a b ⟨hle | ⟨he, hle⟩, hne⟩
    · exact Or.inl hle
    · exact Or.inr ⟨he, lt_of_le_of_ne hle hne⟩
  · intro p hp
    have hcondp := (List.mem_filter.mp hp).2
    simp only [decide_eq_true_eq, not_or, not_lt, not_le] at hcondp
    rw [hrows]
    exact hcondp
  · intro p hp
    have hp1 : p ∈ sorted.take k := List.mem_of_mem_filter hp
    have hp2 : p ∈ sorted := List.mem_of_mem_take hp1
    have hp3 : p ∈ pairs := (List.Perm.mem_iff hperm).mp hp2
    obtain ⟨i, hi, hpe⟩ := List.mem_map.mp hp3
    cases hpe
    simp

end MRag

namespace MRag

theorem retrieve_sorted_by_distance_witness :
    ({ chunk_size_words := 3, chunk_overlap_words := 1, stop := [],
       chunks := [("a".toList), ("b".toList)],
       fitted := some [(("a".toList), (1 : ℚ))],
       index := some [[(1 : ℚ)], [(0 : ℚ)]],
       embeddings := some [[(1 : ℚ)], [(0 : ℚ)]],
       source_name := none } : EngineState).index =
      some [[(1 : ℚ)], [(0 : ℚ)]] ∧
    ({ chunk_size_words := 3, chunk_overlap_words := 1, stop := [],
       chunks := [("a".toList), ("b".toList)],
       fitted := some [(("a".toList), (1 : ℚ))],
       index := some [[(1 : ℚ)], [(0 : ℚ)]],
       embeddings := some [[(1 : ℚ)], [(0 : ℚ)]],
       source_name := none } : EngineState).chunks ≠ [] ∧
    ([[(1 : ℚ)], [(0 : ℚ)]] : List (List ℚ)).length =
      ([("a".toList), ("b".toList)] : List Str).length ∧
    (∃ hits : List (Int × ℚ),
      retrieve
          { chunk_size_words := 3, chunk_overlap_words := 1, stop := [],
            chunks := [("a".toList), ("b".toList)],
            fitted := some [(("a".toList), (1 : ℚ))],
            index := some [[(1 : ℚ)], [(0 : ℚ)]],
            embeddings := some [[(1 : ℚ)], [(0 : ℚ)]],
            source_name := none }
          ("a".toList) 5 =
        .ok (hits.map fun p =>
          { chunk := ([("a".toList), ("b".toList)] : List Str).getD p.1.toNat [],
            score := p.2 }) ∧
      hits.Pairwise (fun a b => a.2 < b.2 ∨ (a.2 = b.2 ∧ a.1 < b.1)) ∧
      (∀ p ∈ hits, 0 ≤ p.1 ∧
        p.1 < (([[(1 : ℚ)], [(0 : ℚ)]] : List (List ℚ)).length : Int)) ∧
      (∀ p ∈ hits, p.2 =
        sqdist (transform [] [(("a".toList), (1 : ℚ))] ("a".toList))
          (([[(1 : ℚ)], [(0 : ℚ)]] : List (List ℚ)).getD p.1.toNat []))) :=
  ⟨rfl, by decide, by decide,
    retrieve_sorted_by_distance
      { chunk_size_words := 3, chunk_overlap_words := 1, stop := [],
        chunks := [("a".toList), ("b".toList)],
        fitted := some [(("a".toList), (1 : ℚ))],
        index := some [[(1 : ℚ)], [(0 : ℚ)]],
        embeddings := some [[(1 : ℚ)], [(0 : ℚ)]],
        source_name := none }
      ("a".toList) 5 [[(1 : ℚ)], [(0 : ℚ)]] [(("a".toList), (1 : ℚ))]
      rfl rfl (by decide) (by decide)⟩

/-- Claim C5: on a loaded knowledge base with `C` chunks and `top_k > C`,
`retrieve` succeeds and returns at most `C` results (the out-of-range padding
indices returned by the index search are silently skipped). -/
theorem retrieve_topk_overflow (s : EngineState) (q : Str) (k : Nat)
    (E : List (List ℚ))
    (hE : s.index = some E) (hc : s.chunks ≠ [])
    (hrows : E.length = s.chunks.length) (_hk : s.chunks.length < k) :
    ∃ rs : List RetrievalResult, retrieve s q k = .ok rs ∧
      rs.length ≤ s.chunks.length := by
  have hidx : s.index ≠ none := by rw [hE]; simp
  have heq := retrieve_eq_hits s q k hidx hc
  rw [hE] at heq
  simp only [Option.getD_some] at heq
  rw [faissSearch_filter] at heq
  set qv := transform s.stop (s.fitted.getD []) q with hqv
  set pairs := (List.range E.length).map
    (fun i => (Int.ofNat i, sqdist qv (E.getD i []))) with hpairs
  set sorted := List.insertionSort pairLE pairs with hsorted_def
  refine ⟨_, heq, ?_⟩
  rw [List.length_map]
  have h1 := List.length_filter_le
    (fun p => decide (¬ (p.1 < 0 ∨ ((s.chunks.length : Int) ≤ p.1))))
    (sorted.take k)
  have h2 : (sorted.take k).length ≤ sorted.length := by
    rw [List.length_take]
    exact min_le_right _ _
  have h3 : sorted.length = E.length := by
    rw [hsorted_def, (List.perm_insertionSort pairLE pairs).length_eq, hpairs,
      List.length_map, List.length_range]
  omega

theorem retrieve_topk_overflow_witness :
    ({ chunk_size_words := 3, chunk_overlap_words := 1, stop := [],
       chunks := [("a".toList), ("b".toList)],
       fitted := some [(("a".toList), (1 : ℚ))],
       index := some [[(1 : ℚ)], [(0 : ℚ)]],
       embeddings := some [[(1 : ℚ)], [(0 : ℚ)]],
       source_name := none } : EngineState).chunks.length < 5 ∧
    (∃ rs : List RetrievalResult,
      retrieve
          { chunk_size_words := 3, chunk_overlap_words := 1, stop := [],
            chunks := [("a".toList), ("b".toList)],
            fitted := some [(("a".toList), (1 : ℚ))],
            index := some [[(1 : ℚ)], [(0 : ℚ)]],
            embeddings := some [[(1 : ℚ)], [(0 : ℚ)]],
            source_name := none }
          ("b".toList) 5 = .ok rs ∧
      rs.length ≤
        ({ chunk_size_words := 3, chunk_overlap_words := 1, stop := [],
           chunks := [("a".toList), ("b".toList)],
           fitted := some [(("a".toList), (1 : ℚ))],
           index := some [[(1 : ℚ)], [(0 : ℚ)]],
           embeddings := some [[(1 : ℚ)], [(0 : ℚ)]],
           source_name := none } : EngineState).chunks.length) :=
  ⟨by decide,
    retrieve_topk_overflow
      { chunk_size_words := 3, chunk_overlap_words := 1, stop := [],
        chunks := [("a".toList), ("b".toList)],
        fitted := some [(("a".toList), (1 : ℚ))],
        index := some [[(1 : ℚ)], [(0 : ℚ)]],
        embeddings := some [[(1 : ℚ)], [(0 : ℚ)]],
        source_name := none }
      ("b".toList) 5 [[(1 : ℚ)], [(0 : ℚ)]]
      rfl (by decide) (by decide) (by decide)⟩

/-- Claim C7: whenever the retriever returns an empty result list, `answer`
returns the fixed no-context sentinel paired with an empty evidence list, and
the external generation collaborator is never invoked — the outcome is
independent of the collaborator supplied. -/
theorem answer_no_context (s : EngineState) (g g' : Str → ℚ → Str)
    (q : Str) (k : Nat) (t : ℚ) (h : retrieve s q k = .ok []) :
    answer s g q k t = .ok (sentinelAnswer, []) ∧
    answer s g q k t = answer s g' q k t := by
  constructor
  · simp [answer, h]
  · simp [answer, h]

theorem answer_no_context_witness :
    retrieve
        { chunk_size_words := 3, chunk_overlap_words := 1, stop := [],
          chunks := [("x".toList)], fitted := some [], index := some [],
          embeddings := some [], source_name := none }
        ("q".toList) 2 = .ok [] ∧
    answer
        { chunk_size_words := 3, chunk_overlap_words := 1, stop := [],
          chunks := [("x".toList)], fitted := some [], index := some [],
          embeddings := some [], source_name := none }
        (fun _ _ => []) ("q".toList) 2 0 = .ok (sentinelAnswer, []) ∧
    answer
        { chunk_size_words := 3, chunk_overlap_words := 1, stop := [],
          chunks := [("x".toList)], fitted := some [], index := some [],
          embeddings := some [], source_name := none }
        (fun _ _ => []) ("q".toList) 2 0 =
      answer
        { chunk_size_words := 3, chunk_overlap_words := 1, stop := [],
          chunks := [("x".toList)], fitted := some [], index := some [],
          embeddings := some [], source_name := none }
        (fun _ _ => ("y".toList)) ("q".toList) 2 0 :=
  ⟨by decide,
    (answer_no_context
      { chunk_size_words := 3, chunk_overlap_words := 1, stop := [],
        chunks := [("x".toList)], fitted := some [], index := some [],
        embeddings := some [], source_name := none }
      (fun _ _ => []) (fun _ _ => ("y".toList)) ("q".toList) 2 0
      (by decide)).1,
    (answer_no_context
      { chunk_size_words := 3, chunk_overlap_words := 1, stop := [],
        chunks := [("x".toList)], fitted := some [], index := some [],
        embeddings := some [], source_name := none }
      (fun _ _ => []) (fun _ _ => ("y".toList)) ("q".toList) 2 0
      (by decide)).2⟩

end MRag
